import Mathlib

/-!
Verification of the obsidian-hugo-sync reconciliation engine against its
natural-language specification.  The Go sources are shallowly embedded:
strings are lists of characters (`Str`), Go machine integers and
`time.Time` values become `Int` ticks, fallible code (Go slice panics)
returns `Option`, and the filesystem is an explicit association list from
paths to file bytes.  Each embedded definition mirrors one Go function and
is named after it.
-/

namespace ObsidianHugoSync

/-- Strings are modelled as lists of characters.  All inputs exercised here
are ASCII, for which Go's byte-indexed `len`/slicing coincides with
character counting. -/
abbrev Str := List Char

/-- Association-list lookup, modelling a Go `map[string]T` read (first
binding wins; insertions prepend, so the newest binding shadows older
ones exactly like a map overwrite). -/
def lookupStr {α : Type} (m : List (Str × α)) (k : Str) : Option α :=
  (m.find? (fun e => e.1 = k)).map (fun e => e.2)

/-- Character class `[a-z0-9]`, the characters `createSlug` keeps. -/
def isSlugChar (c : Char) : Bool :=
  ('a' ≤ c && c ≤ 'z') || ('0' ≤ c && c ≤ '9')

/-- Whitespace as treated by Go's `strings.TrimSpace` and the regexp class
`\s`, restricted to ASCII (the only characters arising here). -/
def isGoSpace (c : Char) : Bool :=
  c = ' ' || c = '\t' || c = '\n' || c = '\x0d' || c = '\x0b' || c = '\x0c'

/-- Word characters, the regexp class `\w`. -/
def isWordChar (c : Char) : Bool :=
  ('a' ≤ c && c ≤ 'z') || ('A' ≤ c && c ≤ 'Z') || ('0' ≤ c && c ≤ '9') || c = '_'

/-- Embeds `strings.TrimSuffix`. -/
def trimSuffixStr (s suff : Str) : Str :=
  if suff.isSuffixOf s then s.take (s.length - suff.length) else s

/-- Embeds `strings.ToLower` (ASCII range; Go also folds non-ASCII letters,
which no input here contains). -/
def toLowerStr (s : Str) : Str := s.map Char.toLower

/-- Recursion core of `collapseNonAlnum`; the fuel is an upper bound on the
number of characters still to be consumed, so `fuel = s.length` makes the
function total without changing its value. -/
def collapseAux : Nat → Str → Str
  | 0, s => s
  | _ + 1, [] => []
  | fuel + 1, c :: rest =>
    if isSlugChar c then c :: collapseAux fuel rest
    else '-' :: collapseAux fuel (rest.dropWhile (fun d => !isSlugChar d))

/-- Embeds `regexp.MustCompile("[^a-z0-9]+").ReplaceAllString(slug, "-")`:
every maximal run of characters outside `[a-z0-9]` becomes one hyphen. -/
def collapseNonAlnum (s : Str) : Str := collapseAux s.length s

/-- Embeds `strings.Trim(slug, "-")`. -/
def trimHyphens (s : Str) : Str :=
  ((s.dropWhile (fun c => c = '-')).reverse.dropWhile (fun c => c = '-')).reverse

/-- Embeds `strings.TrimSpace`. -/
def trimSpace (s : Str) : Str :=
  ((s.dropWhile isGoSpace).reverse.dropWhile isGoSpace).reverse

/-- Embeds the stem computation of `Generator.createSlug`
(internal/hugo/generator.go:112-124): strip a `.md` suffix, lowercase,
collapse runs of non-alphanumerics to single hyphens, trim hyphens, and
substitute "untitled" for an empty result. -/
def slugStem (filename : Str) : Str :=
  let name := trimSuffixStr filename ".md".toList
  let slug1 := collapseNonAlnum (toLowerStr name)
  let slug2 := trimHyphens slug1
  if slug2 = [] then "untitled".toList else slug2

/-- Embeds `Generator.createSlug` (internal/hugo/generator.go:112-132).
When the stem exceeds 50 characters the Go code truncates to 42 characters
and appends a hyphen plus `noteUID[:8]`; that slice panics when the UID
has fewer than 8 bytes, embedded here as `none`. -/
def createSlug (filename noteUID : Str) : Option Str :=
  let slug := slugStem filename
  if slug.length > 50 then
    if 8 ≤ noteUID.length then
      some ((slug.take 42 ++ '-' :: noteUID.take 8) ++ ".md".toList)
    else none
  else
    some (slug ++ ".md".toList)

/-- Helper: the slug stem is never empty, because an empty trim result is
replaced by the fixed placeholder "untitled". -/
theorem slugStem_ne_nil (filename : Str) : slugStem filename ≠ [] := by
  unfold slugStem
  dsimp only
  split
  · decide
  · assumption

/-- C6 counterexample: the spec's concrete slug scenario is wrong.  The
input "VeryLongTitleExceedingFiftyCharactersInTotalLength" is exactly 50
characters, and `createSlug` truncates only when the slug strictly exceeds
50 (`len(slug) > 50`), so the output keeps the full 50-character stem and
is not the claimed 42-character truncation with the UID suffix. -/
theorem createSlug_fifty_char_input_not_truncated :
    createSlug "VeryLongTitleExceedingFiftyCharactersInTotalLength".toList
        "abcd1234-ef56-7890".toList =
      some "verylongtitleexceedingfiftycharactersintotallength.md".toList ∧
    createSlug "VeryLongTitleExceedingFiftyCharactersInTotalLength".toList
        "abcd1234-ef56-7890".toList ≠
      some (("VeryLongTitleExceedingFiftyCharactersInTotalLength".toList.map
          Char.toLower).take 42 ++ "-abcd1234".toList ++ ".md".toList) := by
  constructor
  · decide
  · decide

/-- C6 amended: truncation applies only when the collapsed slug strictly
exceeds 50 characters.  The spec's 50-character input yields the full
lowercased 50-character stem plus the extension untruncated, while a
51-character input is truncated to 42 characters plus a hyphen plus the
first 8 characters of the UID plus the extension. -/
theorem createSlug_truncation_boundary :
    createSlug "VeryLongTitleExceedingFiftyCharactersInTotalLength".toList
        "abcd1234-ef56-7890".toList =
      some "verylongtitleexceedingfiftycharactersintotallength.md".toList ∧
    createSlug "VeryLongTitleExceedingFiftyCharactersInTotalLengthX".toList
        "abcd1234-ef56-7890".toList =
      some "verylongtitleexceedingfiftycharactersintot-abcd1234.md".toList := by
  constructor
  · decide
  · decide

/-- C10 counterexample: `createSlug` is not total.  On a 51-character
alphanumeric filename with an empty UID the Go code evaluates
`noteUID[:8]` on a string of length 0 and panics (embedded as `none`). -/
theorem createSlug_panics_on_short_uid :
    createSlug (List.replicate 51 'a') [] = none := by
  decide

/-- C10 amended: for every filename and every UID of at least 8 characters
`createSlug` returns (no panic) a non-empty string ending in ".md" whose
stem is at most 51 characters long. -/
theorem createSlug_total_and_bounded (filename noteUID : Str)
    (h : 8 ≤ noteUID.length) :
    ∃ stem, createSlug filename noteUID = some (stem ++ ".md".toList) ∧
      stem.length ≤ 51 ∧ stem ≠ [] := by
  have hne : slugStem filename ≠ [] := slugStem_ne_nil filename
  unfold createSlug
  by_cases h50 : (slugStem filename).length > 50
  · rw [if_pos h50, if_pos h]
    refine ⟨(slugStem filename).take 42 ++ '-' :: noteUID.take 8, by simp, ?_, by simp⟩
    simp only [List.length_append, List.length_take, List.length_cons]
    omega
  · rw [if_neg h50]
    exact ⟨slugStem filename, rfl, by omega, hne⟩

/-- C10 amended, witnessed at a concrete input: the filename "A Note.md"
with the 8-character UID "uid12345" satisfies the hypothesis and the
conclusion. -/
theorem createSlug_total_and_bounded_witness :
    8 ≤ "uid12345".toList.length ∧
      ∃ stem, createSlug "A Note.md".toList "uid12345".toList =
          some (stem ++ ".md".toList) ∧ stem.length ≤ 51 ∧ stem ≠ [] :=
  ⟨by decide, createSlug_total_and_bounded "A Note.md".toList "uid12345".toList
    (by decide)⟩

/-- Embeds `strings.Count(s, c)` for a single-character separator. -/
def countChar (c : Char) (s : Str) : Nat := (s.filter (fun d => d = c)).length

/-- Embeds `filepath.Dir` for the already-clean slash-separated paths this
system produces: everything before the last separator, "." when there is
no separator, "/" for a root-level entry. -/
def fpDir (p : Str) : Str :=
  if p.contains '/' then
    let d := ((p.reverse.dropWhile (fun c => c ≠ '/')).reverse).dropLast
    if d = [] then "/".toList else d
  else ".".toList

/-- Embeds `filepath.Base` for clean, non-empty paths without a trailing
separator. -/
def fpBase (p : Str) : Str := (p.reverse.takeWhile (fun c => c ≠ '/')).reverse

/-- Joining of two path elements as in `filepath.Join`: empty elements are
ignored, the rest are separated by a slash (inputs here are already
clean, so the final `Clean` is the identity). -/
def joinTwo (a b : Str) : Str :=
  if a = [] then b else if b = [] then a else a ++ '/' :: b

/-- Embeds a variadic `filepath.Join`. -/
def joinAll (elems : List Str) : Str := elems.foldl joinTwo []

/-- Embeds `filepath.Rel(base, p)` for the only case the daemon exercises:
`p` lies under `base`, so the result strips the `base/` prefix.  The Go
fallback for a failed `Rel` (`filepath.Clean(p)`) is the identity on the
clean paths used here. -/
def filepathRel (base p : Str) : Str :=
  if (base ++ ['/']).isPrefixOf p then p.drop (base.length + 1) else p

/-- Embeds the per-folder normalization of `Generator.convertToHugoURL`:
lowercase, spaces and underscores to hyphens. -/
def hugoFolderFmt (p : Str) : Str :=
  (toLowerStr p).map (fun c => if c = ' ' then '-' else if c = '_' then '-' else c)

/-- Normalizes every path component except the final filename, as in the
loop of `Generator.convertToHugoURL`. -/
def convertPartsAux : List Str → List Str
  | [] => []
  | [last] => [last]
  | p :: rest => hugoFolderFmt p :: convertPartsAux rest

/-- Joins components with a separator, as `strings.Join` after
`strings.Split` (empty components are preserved). -/
def joinSep (sep : Char) : List Str → Str
  | [] => []
  | [x] => x
  | x :: rest => x ++ sep :: joinSep sep rest

/-- Embeds `Generator.convertToHugoURL` (internal/hugo/generator.go:253-273). -/
def convertToHugoURL (p : Str) : Str :=
  joinSep '/' (convertPartsAux (p.splitOn '/'))

/-- Configuration slice shared by the Generator and the Daemon: the vault
root, the Hugo content directory, and the two link-rendering options. -/
structure Config where
  vault : Str
  contentDir : Str
  linkFormat : Str
  unpublishedLink : Str

/-- Embeds `Generator.generateHugoPath` (internal/hugo/generator.go:83-109):
content dir joined with the note's vault-relative folder structure and the
slugified filename; root-level notes go under "posts".  Propagates the
`createSlug` panic case as `none`. -/
def generateHugoPath (g : Config) (notePath noteUID : Str) : Option Str :=
  let relPath := filepathRel g.vault notePath
  let dir := fpDir relPath
  let filename := fpBase relPath
  (createSlug filename noteUID).map fun slug =>
    if dir = ".".toList ∨ dir = "/".toList then
      joinAll [g.contentDir, "posts".toList, slug]
    else
      joinAll (g.contentDir :: dir.splitOn '/' ++ [slug])

/-- Embeds `Daemon.calculateHugoPath` (internal/daemon/daemon.go:438-441):
content dir joined with the bare source filename; no folder structure, no
slugification.  The Go comment itself says "This is simplified - should
use the Hugo generator's path calculation". -/
def calculateHugoPath (cfg : Config) (notePath : Str) : Str :=
  joinTwo cfg.contentDir (trimSuffixStr (fpBase notePath) ".md".toList ++ ".md".toList)

/-- Embeds `Daemon.calculateNoteWeight` (internal/daemon/daemon.go:443-448). -/
def calculateNoteWeight (cfg : Config) (notePath : Str) : Int :=
  100 + (countChar '/' (filepathRel cfg.vault notePath) : Int) * 10

/-- Configuration used by the concrete scenarios: vault "/vault", content
directory "content", relref links, unpublished links as plain text. -/
def cfgA : Config :=
  ⟨"/vault".toList, "content".toList, "relref".toList, "text".toList⟩

/-- C9: the output path the Daemon records in state (and checks against in
unpublish, rename cleanup and the repair sweep) disagrees with the path the
Generator actually writes to.  For the published note
"/vault/guides/Test Note.md" the Daemon records "content/Test Note.md"
while the Generator writes "content/guides/test-note.md". -/
theorem calculateHugoPath_ne_generateHugoPath :
    calculateHugoPath cfgA "/vault/guides/Test Note.md".toList =
      "content/Test Note.md".toList ∧
    generateHugoPath cfgA "/vault/guides/Test Note.md".toList
        "abcd1234-ef56-7890".toList =
      some "content/guides/test-note.md".toList ∧
    (some (calculateHugoPath cfgA "/vault/guides/Test Note.md".toList) ≠
      generateHugoPath cfgA "/vault/guides/Test Note.md".toList
        "abcd1234-ef56-7890".toList) := by
  refine ⟨by decide, by decide, by decide⟩

/-- Embeds `strings.ReplaceAll` for a single-character pattern. -/
def replaceCharStr (a b : Char) (s : Str) : Str :=
  s.map (fun c => if c = a then b else c)

/-- Matches the wikilink regexp from the start of the string.  The pattern
has no backtracking freedom: the target is the maximal run without bracket
or pipe (required non-empty), the optional display part is entered exactly
when a pipe follows, and the closing brackets are then forced.  Returns
(whole match, target group, display group or empty, rest). -/
def wikiAt (s : Str) : Option (Str × Str × Str × Str) :=
  match s with
  | '[' :: '[' :: rest =>
    let t := rest.takeWhile (fun c => c ≠ ']' && c ≠ '|')
    if t = [] then none else
    match rest.drop t.length with
    | '|' :: r2 =>
      let d := r2.takeWhile (fun c => c ≠ ']')
      if d = [] then none else
      (match r2.drop d.length with
       | ']' :: ']' :: r3 =>
         some ('[' :: '[' :: (t ++ '|' :: d ++ [']', ']']), t, d, r3)
       | _ => none)
    | ']' :: ']' :: r3 => some ('[' :: '[' :: (t ++ [']', ']']), t, [], r3)
    | _ => none
  | _ => none

/-- Fueled leftmost search for a wikilink; fuel bounds the characters still
to scan, so `fuel = s.length` covers the whole string. -/
def parseWikiLinkAux : Nat → Str → Option (Str × Str)
  | 0, _ => none
  | _ + 1, [] => none
  | fuel + 1, c :: rest =>
    match wikiAt (c :: rest) with
    | some (_, t, d, _) => some (t, d)
    | none => parseWikiLinkAux fuel rest

/-- Embeds `wikiLinkRegex.FindStringSubmatch` as used at the top of
`Generator.convertWikiLink`: the target and display groups of the leftmost
wikilink match, with an absent display group as the empty string. -/
def parseWikiLink (s : Str) : Option (Str × Str) := parseWikiLinkAux s.length s

/-- Embeds the hard-coded "content/" / "content\\" prefix stripping shared
by `UpdateSlugMap` and the relref branch of `createHugoLink`. -/
def stripContentPre (p : Str) : Str :=
  if "content/".toList.isPrefixOf p then p.drop "content/".toList.length
  else if "content\\".toList.isPrefixOf p then p.drop "content\\".toList.length
  else p

/-- Embeds `Generator.createHugoLink` (internal/hugo/generator.go:221-250):
"md" produces a static absolute URL link, every other value the Hugo
relref shortcode form. -/
def createHugoLink (g : Config) (hugoPath displayText : Str) : Str :=
  if g.linkFormat = "md".toList then
    let url0 := '/' :: replaceCharStr '\\' '/' hugoPath
    let url := if "/".toList.isSuffixOf url0 then url0 else url0 ++ "/".toList
    '[' :: displayText ++ ']' :: '(' :: url ++ [')']
  else
    let p3 := convertToHugoURL (replaceCharStr '\\' '/' (stripContentPre hugoPath))
    '[' :: displayText ++ "](\x7b\x7b< relref \"".toList ++ p3 ++ "\" >\x7d\x7d)".toList

/-- Embeds `Generator.convertWikiLink` (internal/hugo/generator.go:183-218):
re-parse the matched wikilink, trim the target and display text, strip a
"#section" suffix for the lookup key, and either resolve against the slug
map or fall back per the unpublished-link configuration. -/
def convertWikiLink (g : Config) (slugMap : List (Str × Str)) (w : Str) : Str :=
  match parseWikiLink w with
  | none => w
  | some (t, d) =>
    let target := trimSpace t
    let displayText := if d ≠ [] then trimSpace d else target
    let targetForLookup := target.takeWhile (fun c => c ≠ '#')
    match lookupStr slugMap targetForLookup with
    | some hugoPath => createHugoLink g hugoPath displayText
    | none =>
      if g.unpublishedLink = "hash".toList then
        '[' :: displayText ++ "](#)".toList
      else displayText

/-- C1: when the lookup key of a wikilink (its trimmed target with any
"#section" suffix stripped) is absent from the publish-set slug map, the
substituted text is exactly the display text linked to the null anchor '#'
under the "hash" configuration and the plain display text under every
other configuration — never a link to an output location. -/
theorem convertWikiLink_miss_no_dangling (g : Config)
    (slugMap : List (Str × Str)) (w t d : Str)
    (hparse : parseWikiLink w = some (t, d))
    (hmiss : lookupStr slugMap
      ((trimSpace t).takeWhile (fun c => c ≠ '#')) = none) :
    convertWikiLink g slugMap w =
      (if g.unpublishedLink = "hash".toList
       then '[' :: (if d ≠ [] then trimSpace d else trimSpace t) ++ "](#)".toList
       else (if d ≠ [] then trimSpace d else trimSpace t)) := by
  unfold convertWikiLink
  rw [hparse]
  dsimp only
  rw [hmiss]

/-- C1 witnessed at the spec's concrete scenario: the wikilink
"[[Intro]]" whose target is unpublished (empty slug map) renders, under the
"text" configuration, as the plain display text "Intro". -/
theorem convertWikiLink_miss_no_dangling_witness :
    parseWikiLink "[[Intro]]".toList = some ("Intro".toList, []) ∧
    lookupStr ([] : List (Str × Str))
      ((trimSpace "Intro".toList).takeWhile (fun c => c ≠ '#')) = none ∧
    convertWikiLink cfgA [] "[[Intro]]".toList =
      (if cfgA.unpublishedLink = "hash".toList
       then '[' :: (if ([] : Str) ≠ [] then trimSpace []
          else trimSpace "Intro".toList) ++ "](#)".toList
       else (if ([] : Str) ≠ [] then trimSpace []
          else trimSpace "Intro".toList)) :=
  ⟨by decide, by decide,
    convertWikiLink_miss_no_dangling cfgA [] "[[Intro]]".toList "Intro".toList []
      (by decide) (by decide)⟩

/-- The backtick character, written via its code point. -/
def btick : Char := Char.ofNat 96

/-- A three-backtick code fence. -/
def fence : Str := [btick, btick, btick]

/-- Matches the markdown-link regexp at the start of the string: bracketed
text (any run without a closing bracket), then a parenthesised URL (any
run without a closing parenthesis).  Both runs are forced, so there is no
backtracking freedom.  Returns (whole match, rest). -/
def mdLinkAt (s : Str) : Option (Str × Str) :=
  match s with
  | '[' :: r =>
    let t := r.takeWhile (fun c => c ≠ ']')
    (match r.drop t.length with
     | ']' :: '(' :: r2 =>
       let u := r2.takeWhile (fun c => c ≠ ')')
       (match r2.drop u.length with
        | ')' :: r3 => some ('[' :: t ++ ']' :: '(' :: u ++ [')'], r3)
        | _ => none)
     | _ => none)
  | _ => none

/-- Matches the fenced-code-block regexp at the start of the string: a
fence, a maximal run of non-backticks, a fence. -/
def codeBlockAt (s : Str) : Option (Str × Str) :=
  if s.take 3 = fence then
    let r := s.drop 3
    let b := r.takeWhile (fun c => c ≠ btick)
    let r2 := r.drop b.length
    if r2.take 3 = fence then some (fence ++ b ++ fence, r2.drop 3) else none
  else none

/-- Matches the inline-code regexp at the start of the string: a backtick,
a maximal run of non-backticks, a backtick. -/
def inlineCodeAt (s : Str) : Option (Str × Str) :=
  match s with
  | c :: r =>
    if c = btick then
      let b := r.takeWhile (fun d => d ≠ btick)
      (match r.drop b.length with
       | e :: r2 => if e = btick then some (btick :: b ++ [btick], r2) else none
       | [] => none)
    else none
  | [] => none

/-- Fueled scanner collecting all leftmost non-overlapping matches of a
start-anchored matcher, embedding `FindAllString(s, -1)`.  Every step
consumes at least one character, so `fuel = s.length` suffices. -/
def findAllAux (probe : Str → Option (Str × Str)) : Nat → Str → List Str
  | 0, _ => []
  | _ + 1, [] => []
  | fuel + 1, c :: rest =>
    match probe (c :: rest) with
    | some (m, r) => m :: findAllAux probe fuel r
    | none => findAllAux probe fuel rest

/-- All leftmost non-overlapping matches of a matcher in a string. -/
def findAllMatches (probe : Str → Option (Str × Str)) (s : Str) : List Str :=
  findAllAux probe s.length s

/-- Embeds `strings.Replace(s, pat, repl, 1)`: replace the first occurrence
of a non-empty pattern. -/
def replaceFirst (s pat repl : Str) : Str :=
  match s with
  | [] => []
  | c :: rest =>
    if pat ≠ [] && pat.isPrefixOf (c :: rest) then
      repl ++ (c :: rest).drop pat.length
    else c :: replaceFirst rest pat repl

/-- Fueled core of `strings.Replace(s, pat, repl, -1)`; scanning resumes
after the replacement text, never inside it, as in Go. -/
def replaceAllAux (pat repl : Str) : Nat → Str → Str
  | 0, s => s
  | _ + 1, [] => []
  | fuel + 1, c :: rest =>
    if pat ≠ [] && pat.isPrefixOf (c :: rest) then
      repl ++ replaceAllAux pat repl fuel ((c :: rest).drop pat.length)
    else c :: replaceAllAux pat repl fuel rest

/-- Embeds `strings.Replace(s, pat, repl, -1)`. -/
def replaceAllStr (s pat repl : Str) : Str := replaceAllAux pat repl s.length s

/-- Decimal rendering of a number, as Go's `%d` for the placeholder
counters. -/
def natStr (n : Nat) : Str := (Nat.repr n).toList

/-- Placeholder `__MARKDOWN_LINK_i__`. -/
def mdPlaceholder (i : Nat) : Str :=
  "__MARKDOWN_LINK_".toList ++ natStr i ++ "__".toList

/-- Placeholder `__CODE_BLOCK_i__`. -/
def cbPlaceholder (i : Nat) : Str :=
  "__CODE_BLOCK_".toList ++ natStr i ++ "__".toList

/-- Placeholder `__INLINE_CODE_i__`. -/
def icPlaceholder (i : Nat) : Str :=
  "__INLINE_CODE_".toList ++ natStr i ++ "__".toList

/-- One protection pass of `Generator.protectCodeSections`: replace the
first occurrence of each found match with its numbered placeholder and
record the (placeholder, original) pairs in insertion order. -/
def protectListAux (ph : Nat → Str) :
    List Str → Nat → Str → Str × List (Str × Str)
  | [], _, content => (content, [])
  | m :: ms, i, content =>
    let content' := replaceFirst content m (ph i)
    let rest := protectListAux ph ms (i + 1) content'
    (rest.1, (ph i, m) :: rest.2)

/-- Embeds `Generator.protectCodeSections`
(internal/hugo/generator.go:276-312): protect markdown links first, then
fenced code blocks, then inline code, each category found on the text left
by the previous protections.  Returns the protected text and the
placeholder map as a list in insertion order. -/
def protectCodeSections (content : Str) : Str × List (Str × Str) :=
  let ms1 := findAllMatches mdLinkAt content
  let r1 := protectListAux mdPlaceholder ms1 0 content
  let ms2 := findAllMatches codeBlockAt r1.1
  let r2 := protectListAux cbPlaceholder ms2 0 r1.1
  let ms3 := findAllMatches inlineCodeAt r2.1
  let r3 := protectListAux icPlaceholder ms3 0 r2.1
  (r3.1, r1.2 ++ r2.2 ++ r3.2)

/-- Selects entries by index in a caller-supplied order, modelling the
unspecified iteration order of a Go `map` range (a faithful order is any
permutation of all indices). -/
def permuteIdx {α : Type} (entries : List α) (ord : List Nat) : List α :=
  ord.filterMap (fun i => entries.get? i)

/-- Embeds `Generator.restoreCodeSections`
(internal/hugo/generator.go:315-324): for each protected entry, in the map
iteration order, replace every occurrence of its placeholder with the
original text. -/
def restoreCodeSections (entries : List (Str × Str)) (ord : List Nat)
    (content : Str) : Str :=
  (permuteIdx entries ord).foldl (fun acc e => replaceAllStr acc e.1 e.2) content

/-- Fueled core of `wikiLinkRegex.ReplaceAllStringFunc`. -/
def replaceWikiAux (f : Str → Str) : Nat → Str → Str
  | 0, s => s
  | _ + 1, [] => []
  | fuel + 1, c :: rest =>
    match wikiAt (c :: rest) with
    | some (m, _, _, r) => f m ++ replaceWikiAux f fuel r
    | none => c :: replaceWikiAux f fuel rest

/-- Embeds `wikiLinkRegex.ReplaceAllStringFunc(content, f)`. -/
def replaceWikiLinks (f : Str → Str) (s : Str) : Str := replaceWikiAux f s.length s

/-- Embeds `Generator.processWikiLinks` (internal/hugo/generator.go:166-180):
protect, substitute every wikilink, restore.  `ord` is the map iteration
order used by the restore step. -/
def processWikiLinks (g : Config) (slugMap : List (Str × Str)) (ord : List Nat)
    (content : Str) : Str :=
  let pr := protectCodeSections content
  let result := replaceWikiLinks (convertWikiLink g slugMap) pr.1
  restoreCodeSections pr.2 ord result

/-- Matches the Hugo shortcode regexp at the start of the string.  All runs
(spaces, word characters, quoted path) are forced by the disjoint
character classes.  Returns (whole match, shortcode type, path, rest). -/
def shortcodeAt (s : Str) : Option (Str × Str × Str × Str) :=
  if s.take 3 = "\x7b\x7b<".toList then
    let r0 := s.drop 3
    let sp1 := r0.takeWhile isGoSpace
    let r1 := r0.drop sp1.length
    let w := r1.takeWhile isWordChar
    if w = [] then none else
    let r2 := r1.drop w.length
    let sp2 := r2.takeWhile isGoSpace
    if sp2 = [] then none else
    match r2.drop sp2.length with
    | '"' :: r4 =>
      let p := r4.takeWhile (fun c => c ≠ '"')
      if p = [] then none else
      (match r4.drop p.length with
       | '"' :: r5 =>
         let sp3 := r5.takeWhile isGoSpace
         let r6 := r5.drop sp3.length
         if r6.take 3 = ">\x7d\x7d".toList then
           some ("\x7b\x7b<".toList ++ sp1 ++ w ++ sp2 ++ '"' :: p ++ '"' :: sp3 ++
             ">\x7d\x7d".toList, w, p, r6.drop 3)
         else none
       | _ => none)
    | _ => none
  else none

/-- The hard-coded placeholder paths of `escapeExampleShortcodes`. -/
def placeholderPatterns : List Str :=
  ["folder/slug".toList, "folder/note".toList, "path".toList,
   "folder/path".toList, "docs/path".toList]

/-- Replacement decision for one matched shortcode, as in the body of
`escapeExampleShortcodes`. -/
def escapeShortcodeMatch (m w p : Str) : Str :=
  if placeholderPatterns.contains p then
    "\x7b\x7b</* ".toList ++ w ++ " \"".toList ++ p ++ "\" */>\x7d\x7d".toList
  else m

/-- Fueled core of the shortcode `ReplaceAllStringFunc`. -/
def escapeShortcodesAux : Nat → Str → Str
  | 0, s => s
  | _ + 1, [] => []
  | fuel + 1, c :: rest =>
    match shortcodeAt (c :: rest) with
    | some (m, w, p, r) => escapeShortcodeMatch m w p ++ escapeShortcodesAux fuel r
    | none => c :: escapeShortcodesAux fuel rest

/-- Embeds `Generator.escapeExampleShortcodes`
(internal/hugo/generator.go:327-361). -/
def escapeExampleShortcodes (s : Str) : Str := escapeShortcodesAux s.length s

/-- Go `%q` escaping for one character (quotes and backslashes; control and
non-ASCII escapes are not needed by any input here). -/
def goQuoteChar (c : Char) : Str :=
  if c = '"' then ['\\', '"'] else if c = '\\' then ['\\', '\\'] else [c]

/-- Embeds `fmt.Sprintf("%q", s)` for the ASCII strings used here. -/
def goQuote (s : Str) : Str := '"' :: (s.map goQuoteChar).flatten ++ ['"']

/-- Embeds the `HugoContent` struct.  `lastUpdated` holds the RFC3339
rendering of the `time.Now()` reading taken during `GenerateContent`. -/
structure HugoContent where
  path : Str
  title : Str
  content : Str
  weight : Int
  noteUID : Str
  lastUpdated : Str

/-- Embeds `HugoContent.Serialize` (internal/hugo/generator.go:68-80):
fixed-order front-matter (title, weight, noteUid, lastUpdated) followed by
the transformed body. -/
def serializeHugo (hc : HugoContent) : Str :=
  "---\n".toList ++
  "title: ".toList ++ goQuote hc.title ++ ['\n'] ++
  "weight: ".toList ++ (toString hc.weight).toList ++ ['\n'] ++
  "noteUid: ".toList ++ goQuote hc.noteUID ++ ['\n'] ++
  "lastUpdated: ".toList ++ hc.lastUpdated ++ ['\n'] ++
  "---\n\n".toList ++ hc.content

/-- Embeds a parsed `vault.Note` as the daemon sees it: path, persisted
UID, title, body, publish flag, modification time, and the raw bytes used
for fingerprinting. -/
structure VaultNote where
  path : Str
  uid : Str
  title : Str
  content : Str
  published : Bool
  modTime : Int
  raw : Str

/-- Embeds `Generator.GenerateContent` (internal/hugo/generator.go:36-55).
The wall-clock reading (`time.Now()`) enters as `now`, and the placeholder
map iteration order as `ord`; the `createSlug` panic case propagates as
`none`. -/
def generateContent (g : Config) (slugMap : List (Str × Str)) (note : VaultNote)
    (weight : Int) (now : Str) (ord : List Nat) : Option HugoContent :=
  (generateHugoPath g note.path note.uid).map fun hugoPath =>
    let processed := escapeExampleShortcodes
      (processWikiLinks g slugMap ord note.content)
    ⟨hugoPath, note.title, processed, weight, note.uid, now⟩

/-- Plain note used by the render-determinism counterexamples. -/
def notePlain : VaultNote :=
  ⟨"/vault/a.md".toList, "u1234567".toList, "a".toList, "hi".toList, true, 0,
    "hi".toList⟩

/-- Note whose body nests a markdown link inside a fenced code block, making
the placeholder-restoration order observable. -/
def noteNested : VaultNote :=
  ⟨"/vault/a.md".toList, "u1234567".toList, "a".toList,
    "```\n[a](b)\n```".toList, true, 0, "```\n[a](b)\n```".toList⟩

/-- C2 counterexample: rendering is not deterministic across runs.  With
the same note, weight and slug map, the serialized bytes differ (1) between
two runs at different wall-clock times, because `GenerateContent` embeds
`time.Now()` in the front-matter, and (2) even at the same wall-clock time,
between two placeholder-map iteration orders, because
`restoreCodeSections` ranges over a Go map whose order is unspecified. -/
theorem generateContent_not_run_deterministic :
    ((generateContent cfgA [] notePlain 100 "2024-01-01T00:00:00Z".toList []).map
        serializeHugo ≠
      (generateContent cfgA [] notePlain 100 "2024-01-02T00:00:00Z".toList []).map
        serializeHugo) ∧
    ((generateContent cfgA [] noteNested 100 "2024-01-01T00:00:00Z".toList
        [0, 1]).map serializeHugo ≠
      (generateContent cfgA [] noteNested 100 "2024-01-01T00:00:00Z".toList
        [1, 0]).map serializeHugo) := by
  refine ⟨by decide, by decide⟩

/-- C2 amended: rendering is deterministic once the two run-dependent
inputs are fixed.  Two runs of GenerateContent followed by Serialize on
notes with the same path, UID, title and body, with the same weight, the
same slug map, the same wall-clock reading and the same placeholder-map
iteration order produce identical bytes. -/
theorem generateContent_deterministic (g : Config) (slugMap : List (Str × Str))
    (n1 n2 : VaultNote) (w : Int) (now : Str) (ord : List Nat)
    (hp : n1.path = n2.path) (hu : n1.uid = n2.uid) (ht : n1.title = n2.title)
    (hc : n1.content = n2.content) :
    (generateContent g slugMap n1 w now ord).map serializeHugo =
      (generateContent g slugMap n2 w now ord).map serializeHugo := by
  unfold generateContent
  rw [hp, hu, ht, hc]

/-- C2 amended, witnessed at a concrete input: two runs on the plain note
with equal inputs produce identical bytes. -/
theorem generateContent_deterministic_witness :
    notePlain.path = notePlain.path ∧ notePlain.uid = notePlain.uid ∧
    notePlain.title = notePlain.title ∧ notePlain.content = notePlain.content ∧
    (generateContent cfgA [] notePlain 100 "2024-01-01T00:00:00Z".toList []).map
        serializeHugo =
      (generateContent cfgA [] notePlain 100 "2024-01-01T00:00:00Z".toList []).map
        serializeHugo :=
  ⟨rfl, rfl, rfl, rfl,
    generateContent_deterministic cfgA [] notePlain notePlain 100
      "2024-01-01T00:00:00Z".toList [] rfl rfl rfl rfl⟩

/-- Embeds the persisted `state.Note` entry: source location, output
location, modification time, last-sync time, publish status and content
fingerprint.  Times are `Int` ticks; `time.After` is strict `<`. -/
structure StateNote where
  sourcePath : Str
  hugoPath : Str
  lastModified : Int
  lastSync : Int
  published : Bool
  contentHash : Str

/-- Embeds `Manager.NeedsSync` (internal/state, lines 141-163): true for an
unknown UID, a changed source path, a changed content hash, or a
modification time strictly after the stored last-sync time. -/
def needsSync (notes : List (Str × StateNote)) (uid filePath : Str)
    (modTime : Int) (contentHash : Str) : Bool :=
  match lookupStr notes uid with
  | none => true
  | some note =>
    if note.sourcePath ≠ filePath then true
    else if note.contentHash ≠ contentHash then true
    else if note.lastSync < modTime then true
    else false

/-- C7: NeedsSync returns true exactly when no entry exists for the uid, or
the current location differs from the stored source location, or the
fingerprint differs, or the modification time is strictly newer than the
stored last-sync time; otherwise false. -/
theorem needsSync_contract (notes : List (Str × StateNote))
    (uid filePath : Str) (modTime : Int) (contentHash : Str) :
    needsSync notes uid filePath modTime contentHash = true ↔
      lookupStr notes uid = none ∨
      ∃ n, lookupStr notes uid = some n ∧
        (n.sourcePath ≠ filePath ∨ n.contentHash ≠ contentHash ∨
          n.lastSync < modTime) := by
  unfold needsSync
  cases h : lookupStr notes uid with
  | none => simp [h]
  | some n =>
    simp only [h, Option.some.injEq, reduceCtorEq, false_or]
    constructor
    · intro ht
      refine ⟨n, rfl, ?_⟩
      by_contra hcon
      push_neg at hcon
      rw [if_neg (by simpa using hcon.1), if_neg (by simpa using hcon.2.1),
        if_neg (by simpa using hcon.2.2)] at ht
      exact Bool.false_ne_true ht
    · rintro ⟨m, hm, hcase⟩
      cases hm
      rcases hcase with h1 | h2 | h3
      · rw [if_pos h1]
      · by_cases hsp : n.sourcePath ≠ filePath
        · rw [if_pos hsp]
        · rw [if_neg hsp, if_pos h2]
      · by_cases hsp : n.sourcePath ≠ filePath
        · rw [if_pos hsp]
        · by_cases hch : n.contentHash ≠ contentHash
          · rw [if_neg hsp, if_pos hch]
          · rw [if_neg hsp, if_neg hch, if_pos h3]

/-- The 24-hour asset grace period set by `images.NewManager`, in seconds
of model time. -/
def gracePeriod24h : Int := 24 * 60 * 60

/-- Embeds `Manager.CleanupUnusedImages` (internal/images/manager.go:122-179)
as the list of deleted entries: an existing image (output-tree path and
modification time) is deleted exactly when its reference list in the
tracked map is empty (a missing key reads as the empty list, as for a Go
map) and its age `now - modTime` strictly exceeds the grace period. -/
def cleanupUnusedImages (grace : Int) (referencedImages : List (Str × List Str))
    (existing : List (Str × Int)) (now : Int) : List (Str × Int) :=
  existing.filter (fun img =>
    ((lookupStr referencedImages img.1).getD []).isEmpty &&
      decide (grace < now - img.2))

/-- C8: an asset with zero remaining references is never deleted while its
last-modified time is within the 24-hour grace period, and is deleted by a
sweep that runs after the grace period has elapsed with the reference
count still zero. -/
theorem cleanupUnusedImages_grace (referencedImages : List (Str × List Str))
    (existing : List (Str × Int)) (now : Int) (p : Str) (mt : Int)
    (hmem : (p, mt) ∈ existing)
    (hzero : (lookupStr referencedImages p).getD [] = []) :
    (now - mt ≤ gracePeriod24h →
      (p, mt) ∉ cleanupUnusedImages gracePeriod24h referencedImages existing now) ∧
    (gracePeriod24h < now - mt →
      (p, mt) ∈ cleanupUnusedImages gracePeriod24h referencedImages existing now) := by
  constructor
  · intro hle hin
    rw [cleanupUnusedImages, List.mem_filter] at hin
    have h2 := hin.2
    simp only [hzero, List.isEmpty_nil, Bool.true_and, decide_eq_true_eq] at h2
    omega
  · intro hgt
    rw [cleanupUnusedImages, List.mem_filter]
    refine ⟨hmem, ?_⟩
    simp only [hzero, List.isEmpty_nil, Bool.true_and, decide_eq_true_eq]
    omega

/-- C8 witnessed at a concrete input: an unreferenced image modified at
tick 0 is kept by a sweep at tick 1000 (inside the window) and deleted by
a sweep at tick 100000 (after the window). -/
theorem cleanupUnusedImages_grace_witness :
    ("content/img.png".toList, (0 : Int)) ∈
        [("content/img.png".toList, (0 : Int))] ∧
    (lookupStr ([] : List (Str × List Str)) "content/img.png".toList).getD [] =
        [] ∧
    ((1000 : Int) - 0 ≤ gracePeriod24h →
      ("content/img.png".toList, (0 : Int)) ∉
        cleanupUnusedImages gracePeriod24h []
          [("content/img.png".toList, (0 : Int))] 1000) ∧
    (gracePeriod24h < (1000 : Int) - 0 →
      ("content/img.png".toList, (0 : Int)) ∈
        cleanupUnusedImages gracePeriod24h []
          [("content/img.png".toList, (0 : Int))] 1000) :=
  ⟨by decide, by decide,
    (cleanupUnusedImages_grace [] [("content/img.png".toList, (0 : Int))] 1000
      "content/img.png".toList 0 (by decide) (by decide)).1,
    (cleanupUnusedImages_grace [] [("content/img.png".toList, (0 : Int))] 1000
      "content/img.png".toList 0 (by decide) (by decide)).2⟩

/-- Orphan test of `Daemon.repairOrphanedHugoFiles`
(internal/daemon/daemon.go:647-657): a scanned file whose embedded identity
is not currently published is orphaned; the code distinguishes "not in the
state at all" from "in the state but unpublished" only for logging, and
both branches mark the file orphaned. -/
def repairIsOrphan (currentlyPublished : List (Str × Str)) (stateUids : List Str)
    (uid : Str) : Bool :=
  match lookupStr currentlyPublished uid with
  | some _ => false
  | none => if stateUids.contains uid then true else true

/-- Duplicate test of `Daemon.repairOrphanedHugoFiles`
(internal/daemon/daemon.go:658-667): the identity is published but this
file is not at the canonical location recorded for it. -/
def repairIsDuplicate (currentlyPublished : List (Str × Str))
    (relPath uid : Str) : Bool :=
  match lookupStr currentlyPublished uid with
  | some expected => decide (expected ≠ relPath)
  | none => false

/-- The orphaned-file list collected by the repair walk; files without an
embedded identity are left alone. -/
def repairOrphans (pub : List (Str × Str)) (su : List Str)
    (files : List (Str × Str)) : List Str :=
  (files.filter (fun f => !f.2.isEmpty && repairIsOrphan pub su f.2)).map Prod.fst

/-- The duplicate files collected by the repair walk, as (path, uid). -/
def repairDupPairs (pub : List (Str × Str)) (files : List (Str × Str)) :
    List (Str × Str) :=
  files.filter (fun f => !f.2.isEmpty && repairIsDuplicate pub f.1 f.2)

/-- The duplicate deletions (internal/daemon/daemon.go:694-714): every
collected duplicate whose path differs from the canonical path is removed
(the inner re-check mirrors the Go loop). -/
def repairDupDeletions (pub : List (Str × Str)) (files : List (Str × Str)) :
    List Str :=
  ((repairDupPairs pub files).filter (fun f =>
    match lookupStr pub f.2 with
    | some expected => decide (f.1 ≠ expected)
    | none => false)).map Prod.fst

/-- All files removed by one repair sweep: orphans, then duplicates.  The
Go code deletes orphans in walk order and duplicates grouped by uid in map
order; only the order of this list, not its membership, depends on that. -/
def repairDeletions (pub : List (Str × Str)) (su : List Str)
    (files : List (Str × Str)) : List Str :=
  repairOrphans pub su files ++ repairDupDeletions pub files

/-- The output tree, keyed by repo-relative path. -/
abbrev Fs := List (Str × Str)

/-- One operation against the output tree. -/
inductive FsOp where
  | write : Str → FsOp
  | del : Str → FsOp
deriving DecidableEq

/-- Tests whether an operation is a write. -/
def isWrite : FsOp → Bool
  | .write _ => true
  | .del _ => false

/-- Number of output-tree writes in an operation log. -/
def countWrites (ops : List FsOp) : Nat := (ops.filter isWrite).length

/-- Number of output-tree deletions in an operation log. -/
def countDeletes (ops : List FsOp) : Nat :=
  (ops.filter (fun o => !isWrite o)).length

/-- Write (create or overwrite) a file. -/
def fsSet (fs : Fs) (p v : Str) : Fs := (p, v) :: fs.filter (fun e => e.1 ≠ p)

/-- Remove a file. -/
def fsDelete (fs : Fs) (p : Str) : Fs := fs.filter (fun e => e.1 ≠ p)

/-- Existence test, modelling `os.Stat` success. -/
def fsHas (fs : Fs) (p : Str) : Bool := fs.any (fun e => e.1 = p)

/-- Embeds `state.CalculateContentHash`.  The SHA-256 digest is modelled as
an injective fingerprint of the raw bytes; only equality of fingerprints
is ever consumed. -/
def hashOf (raw : Str) : Str := "sha256-".toList ++ raw

/-- Map update for the state store (newest binding shadows older ones). -/
def stSet (st : List (Str × StateNote)) (uid : Str) (n : StateNote) :
    List (Str × StateNote) :=
  (uid, n) :: st.filter (fun e => e.1 ≠ uid)

/-- Finds the front-matter closing delimiter, as the Go loop starting at
line 1 of `extractNoteUidFromHugoFile`; `i` is the absolute index of the
first element of the remaining list. -/
def findDelimIdx : Nat → List Str → Option Nat
  | _, [] => none
  | i, l :: ls => if trimSpace l = "---".toList then some i else findDelimIdx (i + 1) ls

/-- Finds the first front-matter line matching `^noteUid:\s*(.+)$` and
returns its trimmed capture, which keeps the surrounding quotes written by
`Serialize`'s `%q` verb. -/
def findNoteUid : List Str → Str
  | [] => []
  | l :: ls =>
    if "noteUid:".toList.isPrefixOf l ∧ l.drop 8 ≠ [] then trimSpace (l.drop 8)
    else findNoteUid ls

/-- Embeds `Daemon.extractNoteUidFromHugoFile`
(internal/daemon/daemon.go:730-769). -/
def extractNoteUid (content : Str) : Str :=
  if "---\n".toList.isPrefixOf content then
    match findDelimIdx 1 ((content.splitOn '\n').drop 1) with
    | none => []
    | some endIdx =>
      findNoteUid (((content.splitOn '\n').drop 1).take (endIdx - 1))
  else []

/-- Embeds `Daemon.publishNote` (internal/daemon/daemon.go:346-382) without
its image and section-index side work: render and write the serialized
output at the generator's path.  `none` models the `createSlug` panic. -/
def publishNote (cfg : Config) (slugMap : List (Str × Str)) (fs : Fs)
    (n : VaultNote) (nowStr : Str) (ord : List Nat) : Option (Fs × List FsOp) :=
  (generateContent cfg slugMap n (calculateNoteWeight cfg n.path) nowStr ord).map
    fun hc => (fsSet fs hc.path (serializeHugo hc), [FsOp.write hc.path])

/-- Embeds `Daemon.unpublishNote` (internal/daemon/daemon.go:385-409)
without its image bookkeeping: delete the recorded simplified path if a
file exists there. -/
def unpublishNote (cfg : Config) (fs : Fs) (n : VaultNote) : Fs × List FsOp :=
  let p := calculateHugoPath cfg n.path
  if fsHas fs p then (fsDelete fs p, [FsOp.del p]) else (fs, [])

/-- Result of processing one note: updated state store, updated output
tree, operation log, and whether a global re-render was flagged. -/
structure ProcOut where
  st : List (Str × StateNote)
  fs : Fs
  ops : List FsOp
  linkUpd : Bool

/-- Embeds `Daemon.processNote` (internal/daemon/daemon.go:256-343) for
notes that already carry a UID (so `EnsureUID` reports no change) with
auto-weight disabled: classify via `NeedsSync`, publish or unpublish,
delete the recorded old output on a rename of a published note if a file
exists there, flag the global re-render, and update the state entry with
the simplified `calculateHugoPath`. -/
def processNote (cfg : Config) (slugMap : List (Str × Str))
    (st : List (Str × StateNote)) (fs : Fs) (n : VaultNote) (now : Int)
    (nowStr : Str) (ord : List Nat) : Option ProcOut :=
  let contentHash := hashOf n.raw
  if needsSync st n.uid n.path n.modTime contentHash then
    let oldNote := lookupStr st n.uid
    let isRenamed := match oldNote with
      | some o => decide (o.sourcePath ≠ n.path)
      | none => false
    let step1? : Option (Fs × List FsOp) :=
      if n.published then publishNote cfg slugMap fs n nowStr ord
      else some (unpublishNote cfg fs n)
    step1?.map fun step1 =>
      let cleanup : Fs × List FsOp × Bool :=
        match oldNote with
        | some o =>
          if isRenamed && o.published then
            if fsHas step1.1 o.hugoPath then
              (fsDelete step1.1 o.hugoPath, [FsOp.del o.hugoPath], n.published)
            else (step1.1, [], n.published)
          else (step1.1, [], false)
        | none => (step1.1, [], false)
      let st' := stSet st n.uid
        ⟨n.path, calculateHugoPath cfg n.path, n.modTime, now, n.published,
          contentHash⟩
      ⟨st', cleanup.1, step1.2 ++ cleanup.2.1, cleanup.2.2⟩
  else
    some ⟨st, fs, [], false⟩

/-- Embeds `Generator.UpdateSlugMap` (internal/hugo/generator.go:135-163):
for each published note, map its filename stem (and title, when different)
to the relref path derived from the generator path.  Go iterates a map in
unspecified order; with distinct keys the resulting lookups are
order-independent, and the model uses the pass's collection order. -/
def updateSlugMapAux (cfg : Config) :
    List VaultNote → List (Str × Str) → Option (List (Str × Str))
  | [], acc => some acc
  | n :: ns, acc =>
    if n.published then
      match generateHugoPath cfg n.path n.uid with
      | none => none
      | some hugoPath =>
        let filename := trimSuffixStr (fpBase n.path) ".md".toList
        let relPath := trimSuffixStr
          (convertToHugoURL (replaceCharStr '\\' '/' (stripContentPre hugoPath)))
          ".md".toList
        let acc1 := (filename, relPath) :: acc
        let acc2 := if n.title ≠ filename then (n.title, relPath) :: acc1 else acc1
        updateSlugMapAux cfg ns acc2
    else updateSlugMapAux cfg ns acc

/-- Entry point of `UpdateSlugMap` starting from the freshly cleared map. -/
def updateSlugMap (cfg : Config) (published : List VaultNote) :
    Option (List (Str × Str)) :=
  updateSlugMapAux cfg published []

/-- Byte-wise lexicographic order on paths, as Go's `<` on strings over
ASCII. -/
def strLtB : Str → Str → Bool
  | [], [] => false
  | [], _ :: _ => true
  | _ :: _, [] => false
  | a :: as, b :: bs => if a < b then true else if b < a then false else strLtB as bs

/-- Insertion step of the path sort used by `regeneratePublishedContent`. -/
def insertSorted (x : VaultNote) : List VaultNote → List VaultNote
  | [] => [x]
  | y :: ys => if strLtB x.path y.path then x :: y :: ys else y :: insertSorted x ys

/-- Sorts notes by path, as the `sort.Slice` call in
`regeneratePublishedContent`. -/
def sortByPath (l : List VaultNote) : List VaultNote := l.foldr insertSorted []

/-- Recursion core of `regeneratePublishedContent`: render and write every
note in order. -/
def regenerateAux (cfg : Config) (slugMap : List (Str × Str)) (nowStr : Str)
    (ord : List Nat) : List VaultNote → Fs → Option (Fs × List FsOp)
  | [], fs => some (fs, [])
  | n :: ns, fs =>
    match generateContent cfg slugMap n (calculateNoteWeight cfg n.path) nowStr ord with
    | none => none
    | some hc =>
      match regenerateAux cfg slugMap nowStr ord ns
          (fsSet fs hc.path (serializeHugo hc)) with
      | none => none
      | some r => some (r.1, FsOp.write hc.path :: r.2)

/-- Embeds `Daemon.regeneratePublishedContent`
(internal/daemon/daemon.go:794-828): unconditionally re-render and write
every published note, in path order. -/
def regeneratePublishedContent (cfg : Config) (slugMap : List (Str × Str))
    (nowStr : Str) (ord : List Nat) (published : List VaultNote) (fs : Fs) :
    Option (Fs × List FsOp) :=
  regenerateAux cfg slugMap nowStr ord (sortByPath published) fs

/-- Embeds `Daemon.repairOrphanedHugoFiles`
(internal/daemon/daemon.go:594-727): scan the output tree below the
content directory (skipping `_index.md` and non-markdown files), extract
each file's embedded identity, classify against the fresh publish map
(keyed by `calculateHugoPath`) and the state store, and delete orphans and
off-canonical duplicates.  Returns the new tree, the deletion log, and
whether a global re-render was flagged. -/
def repairOrphanedHugoFiles (cfg : Config) (published : List VaultNote)
    (st : List (Str × StateNote)) (fs : Fs) : Fs × List FsOp × Bool :=
  let currentlyPublished := published.map
    (fun n => (n.uid, calculateHugoPath cfg n.path))
  let stateUids := st.map Prod.fst
  let files := (fs.filter (fun e =>
      (cfg.contentDir ++ ['/']).isPrefixOf e.1 &&
      ".md".toList.isSuffixOf e.1 &&
      !("_index.md".toList.isSuffixOf e.1))).map
    (fun e => (e.1, extractNoteUid e.2))
  let dels := repairDeletions currentlyPublished stateUids files
  (dels.foldl fsDelete fs, dels.map FsOp.del, !dels.isEmpty)

/-- Result of one full sync pass. -/
structure SyncOut where
  st : List (Str × StateNote)
  fs : Fs
  ops : List FsOp
  linkUpd : Bool

/-- Per-note loop of `Daemon.performFullSync`: process every scanned note
with the generator's current slug map, collecting the published ones. -/
def fullSyncNotesLoop (cfg : Config) (slugMap : List (Str × Str)) :
    List VaultNote → List (Str × StateNote) → Fs → Int → Str → List Nat →
    Option (List (Str × StateNote) × Fs × List FsOp × Bool × List VaultNote)
  | [], st, fs, _, _, _ => some (st, fs, [], false, [])
  | n :: ns, st, fs, now, nowStr, ord =>
    match processNote cfg slugMap st fs n now nowStr ord with
    | none => none
    | some po =>
      match fullSyncNotesLoop cfg slugMap ns po.st po.fs now nowStr ord with
      | none => none
      | some r =>
        some (r.1, r.2.1, po.ops ++ r.2.2.1, po.linkUpd || r.2.2.2.1,
          if n.published then n :: r.2.2.2.2 else r.2.2.2.2)

/-- Embeds `Daemon.performFullSync` (internal/daemon/daemon.go:143-213)
without its image and section-index side work: process every note, rebuild
the slug map from the published set, unconditionally regenerate every
published note, then run the orphan/duplicate repair sweep.  Returns the
pass result together with the slug map the generator now holds. -/
def performFullSync (cfg : Config) (slugMap0 : List (Str × Str))
    (notes : List VaultNote) (st : List (Str × StateNote)) (fs : Fs)
    (now : Int) (nowStr : Str) (ord : List Nat) :
    Option (SyncOut × List (Str × Str)) :=
  match fullSyncNotesLoop cfg slugMap0 notes st fs now nowStr ord with
  | none => none
  | some r =>
    let st1 := r.1
    let fs1 := r.2.1
    let ops1 := r.2.2.1
    let lu1 := r.2.2.2.1
    let pubs := r.2.2.2.2
    match updateSlugMap cfg pubs with
    | none => none
    | some m1 =>
      match regeneratePublishedContent cfg m1 nowStr ord pubs fs1 with
      | none => none
      | some rg =>
        let rep := repairOrphanedHugoFiles cfg pubs st1 rg.1
        some (⟨st1, rep.1, ops1 ++ rg.2 ++ rep.2.1, lu1 || rep.2.2⟩, m1)

/-- The single published note of the idempotence scenario. -/
def noteGuides : VaultNote :=
  ⟨"/vault/guides/test.md".toList, "u1234567".toList, "test".toList,
    "hello".toList, true, 100, "hello".toList⟩

/-- C3 failing input: on a vault holding one published note, the second of
two consecutive full passes with no source change still performs exactly
one output-tree write (the unconditional regeneration of the published
note) and one deletion (the repair sweep removes the freshly written file,
because the identity it extracts keeps the `%q` quotes and so never
matches a published UID), refuting zero-write idempotence. -/
theorem fullSync_second_pass_not_idempotent :
    (match performFullSync cfgA [] [noteGuides] [] [] 1000
        "2024-01-01T00:00:00Z".toList [] with
     | some r1 =>
        (performFullSync cfgA r1.2 [noteGuides] r1.1.st r1.1.fs 2000
          "2024-01-02T00:00:00Z".toList []).map
          (fun r2 => (countWrites r2.1.ops, countDeletes r2.1.ops))
     | none => none) = some (1, 1) := by
  decide

/-- Serialized output bytes for the published note of the repair scenario,
exactly as `Serialize` writes them: the front-matter carries
`noteUid: "u1234567"` with the quotes added by the `%q` verb. -/
def canonicalBytes : Str :=
  serializeHugo ⟨"content/test.md".toList, "test".toList, "hello".toList, 110,
    "u1234567".toList, "2024-01-01T00:00:00Z".toList⟩

/-- C5 failing input: an output-tree file sitting exactly at the canonical
location (`calculateHugoPath`) of a published identity, with that identity
embedded in its front-matter.  The claim says such a file is neither an
orphan nor a duplicate and is kept.  The sweep instead deletes it:
`extractNoteUidFromHugoFile` captures the identity together with the `%q`
quotes, the quoted string matches no published UID, and the file is
classified orphaned — so the sweep removes every generator-written file,
canonical copies included. -/
theorem repairSweep_deletes_canonical_copy :
    calculateHugoPath cfgA noteGuides.path = "content/test.md".toList ∧
    extractNoteUid canonicalBytes = "\"u1234567\"".toList ∧
    repairOrphanedHugoFiles cfgA [noteGuides]
        [("u1234567".toList,
          (⟨"/vault/guides/test.md".toList, "content/test.md".toList, 100, 1000,
            true, hashOf "hello".toList⟩ : StateNote))]
        [("content/test.md".toList, canonicalBytes)] =
      ([], [FsOp.del "content/test.md".toList], true) := by
  decide

/-- State entry recorded for the note before its rename: the daemon stored
the simplified `calculateHugoPath` "content/a.md", while the actual output
written by the generator sits at "content/notes/a.md". -/
def stRenamed : List (Str × StateNote) :=
  [("u1234567".toList,
    ⟨"/vault/notes/a.md".toList, "content/a.md".toList, 50, 60, true,
      hashOf "hi".toList⟩)]

/-- Output tree before the rename: only the generator-written old file. -/
def fsRenamed : Fs := [("content/notes/a.md".toList, "old-bytes".toList)]

/-- The renamed note: same UID and content, new source location. -/
def noteRenamed : VaultNote :=
  ⟨"/vault/notes/b.md".toList, "u1234567".toList, "b".toList, "hi".toList,
    true, 50, "hi".toList⟩

/-- C4 failing input: processing the rename of a published note deletes
nothing — the code stats the recorded simplified path "content/a.md",
where no output ever exists, so the real old output at
"content/notes/a.md" survives — while it does create the new output and
flag the global re-render.  The claim's "exactly one old-output deletion"
fails. -/
theorem processNote_rename_deletes_nothing :
    (processNote cfgA [] stRenamed fsRenamed noteRenamed 70
        "2024-01-01T00:00:00Z".toList []).map
      (fun po => (countDeletes po.ops, countWrites po.ops, po.linkUpd,
        fsHas po.fs "content/notes/a.md".toList)) =
      some (0, 1, true, true) := by
  decide

end ObsidianHugoSync
